import Mathlib

/-!
# template.c : 16-bit packet field accessors and port validation

A shallow embedding of `src/template.c`.

* Memory is one object, a list of bytes.  A `char *` is either `NULL` or the
  index of a byte of that object; `&packet_buffer[offset]` is index plus
  offset.  The C functions receive no length: the caller's buffer is a window
  of the object, written `before ++ b ++ after` with the pointer at
  `before.length`.
* An access that leaves the object is undefined behaviour, `Outcome.undefined`.
* `uint16_t` values are naturals below `65536`; the object representation of a
  `uint16_t` (what `memcpy` copies) depends on the byte order of the host.
-/

namespace Template

/-- One byte of memory, as an unsigned value in `[0, 255]`. -/
abbrev Byte := Fin 256

/-- The object a packet buffer lives in. -/
abbrev Memory := List Byte

/-- Byte order of the machine running the program. -/
inductive Endian where
  | little
  | big
  deriving DecidableEq, Repr

/-- A `char *`: `NULL`, or the index of a byte of the object. -/
inductive Pointer where
  | null
  | addr (a : Nat)
  deriving DecidableEq, Repr

/-- Result of running a piece of C: a value, or undefined behaviour. -/
inductive Outcome (α : Type) where
  | ok (a : α)
  | undefined
  deriving DecidableEq, Repr

/-- The byte holding the low eight bits of `n`. -/
def byteOf (n : Nat) : Byte := ⟨n % 256, Nat.mod_lt n (by decide)⟩

/-- Object representation of the `uint16_t` `v`: its two bytes in the order the
host keeps them in memory. -/
def objectBytes (host : Endian) (v : Nat) : Byte × Byte :=
  match host with
  | .little => (byteOf v, byteOf (v / 256))
  | .big => (byteOf (v / 256), byteOf v)

/-- The `uint16_t` whose object representation is the two bytes given. -/
def objectValue (host : Endian) (bs : Byte × Byte) : Nat :=
  match host with
  | .little => bs.1.val + 256 * bs.2.val
  | .big => 256 * bs.1.val + bs.2.val

/-- Exchange the two bytes of a 16-bit value. -/
def bswap16 (v : Nat) : Nat := (v % 256) * 256 + v / 256 % 256

/-- POSIX `htons`: host to network order, the identity on a big-endian host and
a byte swap on a little-endian one. -/
def htons (host : Endian) (v : Nat) : Nat :=
  match host with
  | .little => bswap16 v
  | .big => v % 65536

/-- POSIX `ntohs`: network to host order. -/
def ntohs (host : Endian) (v : Nat) : Nat :=
  match host with
  | .little => bswap16 v
  | .big => v % 65536

/-- The call `memcpy(&mem[a], &value, 2)` where `bs` is the representation of
`value`: undefined unless both bytes lie in the object. -/
def memcpyStore (mem : Memory) (a : Int) (bs : Byte × Byte) : Outcome Memory :=
  if 0 ≤ a ∧ a.toNat + 2 ≤ mem.length then
    .ok ((mem.set a.toNat bs.1).set (a.toNat + 1) bs.2)
  else .undefined

/-- The call `memcpy(&value, &mem[a], 2)`: the two bytes read, undefined unless
both lie in the object. -/
def memcpyLoad (mem : Memory) (a : Int) : Outcome (Byte × Byte) :=
  if h : 0 ≤ a ∧ a.toNat + 2 ≤ mem.length then
    .ok (mem.get ⟨a.toNat, by omega⟩, mem.get ⟨a.toNat + 1, by omega⟩)
  else .undefined

/-- Embedding of `write_uint16_to_packet` (template.c, lines 15-20).  The
result is the memory after the call. -/
def write_uint16_to_packet (host : Endian) (mem : Memory) (packet_buffer : Pointer)
    (offset : Int) (value : Nat) : Outcome Memory :=
  match packet_buffer with
  | .null => .ok mem
  | .addr p =>
    let value := htons host (value % 65536)
    memcpyStore mem ((p : Int) + offset) (objectBytes host value)

/-- Embedding of `read_uint16_from_packet` (template.c, lines 22-27). -/
def read_uint16_from_packet (host : Endian) (mem : Memory) (packet_buffer : Pointer)
    (offset : Int) : Outcome Nat :=
  match packet_buffer with
  | .null => .ok 0
  | .addr p =>
    match memcpyLoad mem ((p : Int) + offset) with
    | .undefined => .undefined
    | .ok value => .ok (ntohs host (objectValue host value))

/-- The indices of the object touched by a two-byte `memcpy` at index `a`. -/
def footprint (a : Int) : List Int := [a, a + 1]

/-! ## The entry point -/

/-- C `isspace` in the "C" locale. -/
def isspace (c : Char) : Bool := c.toNat = 32 || (9 ≤ c.toNat && c.toNat ≤ 13)

/-- C `isdigit`. -/
def isdigit (c : Char) : Bool := 48 ≤ c.toNat && c.toNat ≤ 57

/-- Value of a run of decimal digits. -/
def digitsValue (ds : List Char) : Nat :=
  ds.foldl (fun acc c => acc * 10 + (c.toNat - 48)) 0

/-- Least value of a 32-bit `int`. -/
def INT_MIN : Int := -2147483648

/-- Greatest value of a 32-bit `int`. -/
def INT_MAX : Int := 2147483647

/-- The call `sscanf(s, "%d", &port)` of the C library: leading white space is
skipped, then an optional sign and the longest run of decimal digits is
converted.  `ok (some n)` is return value `1` with `n` stored in `port`;
`ok none` is any other return value (no digit: `0` or `EOF`); a number that
does not fit an `int` is undefined behaviour. -/
def sscanf_d (s : List Char) : Outcome (Option Int) :=
  let s := s.dropWhile isspace
  let signed : Bool × List Char :=
    match s with
    | [] => (false, [])
    | c :: rest =>
      if c.toNat = 45 then (true, rest)
      else if c.toNat = 43 then (false, rest)
      else (false, c :: rest)
  let ds := signed.2.takeWhile isdigit
  if ds.isEmpty then .ok none
  else
    let n : Int := if signed.1 then -(digitsValue ds : Int) else (digitsValue ds : Int)
    if INT_MIN ≤ n ∧ n ≤ INT_MAX then .ok (some n) else .undefined

/-- What a run of the process leaves behind: the lines written to the error
stream, in order, and the exit status. -/
structure ProcessResult where
  stderr : List String
  status : Int
  deriving DecidableEq, Repr

/-- The value of `EXIT_FAILURE` of `<stdlib.h>`. -/
def EXIT_FAILURE : Int := 1

/-- Status of a process whose `main` runs to its closing brace. -/
def EXIT_SUCCESS : Int := 0

/-- The message of template.c line 35. -/
def usageMessage : String :=
  "Program requires a port number as the first argument\n"

/-- The message of template.c lines 40-41. -/
def rangeMessage : String :=
  "Port number must be greater than or equal to 1024 and less than or equal to 65535\n"

/-- Embedding of `main` (template.c, lines 30-44).  `argv` holds the argument
strings; reading `argv[1]` when there is none is undefined. -/
def main (argc : Int) (argv : List String) : Outcome ProcessResult :=
  if argc < 2 then .ok ⟨[usageMessage], EXIT_FAILURE⟩
  else
    match argv.get? 1 with
    | none => .undefined
    | some arg =>
      match sscanf_d arg.toList with
      | .undefined => .undefined
      | .ok none => .ok ⟨[usageMessage], EXIT_FAILURE⟩
      | .ok (some port) =>
        let err := if port ≤ 1023 ∨ port > 65535 then [rangeMessage] else []
        .ok ⟨err, EXIT_SUCCESS⟩

/-! ## Byte order lemmas -/

theorem bswap16_mod (v : Nat) : bswap16 v % 256 = v / 256 % 256 := by
  unfold bswap16
  generalize v % 256 = l
  have := Nat.mod_lt (v / 256) (show 0 < 256 by decide)
  generalize v / 256 % 256 = h at *
  omega

theorem bswap16_div (v : Nat) : bswap16 v / 256 = v % 256 := by
  unfold bswap16
  have := Nat.mod_lt (v / 256) (show 0 < 256 by decide)
  generalize v / 256 % 256 = h at *
  generalize v % 256 = l
  omega

/-- Whatever the host, the bytes `memcpy` finds in `htons(value)` are the high
byte then the low byte of `value`. -/
theorem objectBytes_htons (host : Endian) (v : Nat) :
    objectBytes host (htons host (v % 65536)) = (byteOf (v % 65536 / 256), byteOf v) := by
  cases host
  · simp only [objectBytes, htons, byteOf, Prod.mk.injEq, Fin.mk.injEq, bswap16_mod,
      bswap16_div]
    exact ⟨trivial, by omega⟩
  · simp only [objectBytes, htons, byteOf, Prod.mk.injEq, Fin.mk.injEq]
    constructor <;> omega

/-- Whatever the host, `ntohs` of the value `memcpy` assembled from two bytes
is the first byte times 256 plus the second. -/
theorem ntohs_objectValue (host : Endian) (bs : Byte × Byte) :
    ntohs host (objectValue host bs) = 256 * bs.1.val + bs.2.val := by
  have h1 := bs.1.isLt
  have h2 := bs.2.isLt
  cases host
  · simp only [ntohs, objectValue, bswap16]; omega
  · simp only [ntohs, objectValue]; omega

/-! ## Memory lemmas -/

theorem memcpyLoad_eq (mem : Memory) (a : Int) (x y : Byte) (h0 : 0 ≤ a)
    (hx : mem[a.toNat]? = some x) (hy : mem[a.toNat + 1]? = some y) :
    memcpyLoad mem a = .ok (x, y) := by
  have hlen : a.toNat + 1 < mem.length := by
    rcases Nat.lt_or_ge (a.toNat + 1) mem.length with h | h
    · exact h
    · rw [List.getElem?_eq_none h] at hy; cases hy
  have hc : 0 ≤ a ∧ a.toNat + 2 ≤ mem.length := ⟨h0, by omega⟩
  rw [List.getElem?_eq_getElem (by omega)] at hx hy
  simp only [Option.some.injEq] at hx hy
  simp only [memcpyLoad, hc, and_self, dite_true, List.get_eq_getElem, hx, hy]

theorem memcpyStore_window (before b after : List Byte) (o : Int) (bs : Byte × Byte)
    (h0 : 0 ≤ o) (h : o + 2 ≤ b.length) :
    memcpyStore (before ++ b ++ after) ((before.length : Int) + o) bs
      = .ok (before ++ (b.set o.toNat bs.1).set (o.toNat + 1) bs.2 ++ after) := by
  have ht : ((before.length : Int) + o).toNat = before.length + o.toNat := by omega
  have hc : 0 ≤ (before.length : Int) + o ∧
      ((before.length : Int) + o).toNat + 2 ≤ (before ++ b ++ after).length := by
    refine ⟨by omega, ?_⟩
    simp only [List.length_append]
    omega
  unfold memcpyStore
  rw [if_pos hc, ht]
  congr 1
  rw [List.append_assoc, List.append_assoc]
  rw [List.set_append_right _ _ (by omega)]
  rw [List.set_append_right _ _ (by omega)]
  have e1 : before.length + o.toNat - before.length = o.toNat := by omega
  have e2 : before.length + o.toNat + 1 - before.length = o.toNat + 1 := by omega
  rw [e1, e2]
  rw [List.set_append_left _ _ (by omega)]
  rw [List.set_append_left _ _ (by rw [List.length_set]; omega)]

/-- A write inside the buffer `b` stores the high byte at `offset` and the low
byte at `offset + 1`, and nothing else of the object changes. -/
theorem write_window (host : Endian) (before b after : List Byte) (o : Int) (v : Nat)
    (h0 : 0 ≤ o) (h : o + 2 ≤ b.length) :
    write_uint16_to_packet host (before ++ b ++ after) (.addr before.length) o v
      = .ok (before ++ (b.set o.toNat (byteOf (v % 65536 / 256))).set (o.toNat + 1) (byteOf v)
          ++ after) := by
  simp only [write_uint16_to_packet, objectBytes_htons]
  exact memcpyStore_window before b after o _ h0 h

/-- A read inside the buffer `b` returns the byte at `offset` times 256 plus
the byte at `offset + 1`. -/
theorem read_window (host : Endian) (before b after : List Byte) (o : Int) (x y : Byte)
    (h0 : 0 ≤ o) (hx : b[o.toNat]? = some x) (hy : b[o.toNat + 1]? = some y) :
    read_uint16_from_packet host (before ++ b ++ after) (.addr before.length) o
      = .ok (256 * x.val + y.val) := by
  have ht : ((before.length : Int) + o).toNat = before.length + o.toNat := by omega
  have hlen : o.toNat + 1 < b.length := by
    rcases Nat.lt_or_ge (o.toNat + 1) b.length with h | h
    · exact h
    · rw [List.getElem?_eq_none h] at hy; cases hy
  have gx : (before ++ b ++ after)[((before.length : Int) + o).toNat]? = some x := by
    rw [ht, List.append_assoc, List.getElem?_append_right (by omega),
      List.getElem?_append_left (by omega), ← hx]
    congr 1; omega
  have gy : (before ++ b ++ after)[((before.length : Int) + o).toNat + 1]? = some y := by
    rw [ht, List.append_assoc, List.getElem?_append_right (by omega),
      List.getElem?_append_left (by omega), ← hy]
    congr 1; omega
  simp only [read_uint16_from_packet,
    memcpyLoad_eq _ _ x y (by omega) gx gy, ntohs_objectValue]

/-- The two bytes a write leaves at `i` and `i + 1`. -/
theorem written_bytes (b : List Byte) (i : Nat) (hi lo : Byte) (h : i + 2 ≤ b.length) :
    ((b.set i hi).set (i + 1) lo)[i]? = some hi ∧
    ((b.set i hi).set (i + 1) lo)[i + 1]? = some lo := by
  constructor
  · rw [List.getElem?_set_ne (by omega), List.getElem?_set_self (by omega)]
  · rw [List.getElem?_set_self (by rw [List.length_set]; omega)]

/-! ## The codec inside the caller's buffer -/

/-- C1. Round trip: for every buffer `b` (anywhere in its object), every offset
`o` with `0 ≤ o` and `o + 2 ≤ length b`, and every 16-bit value `v`, the write
succeeds and reading the written memory at the same offset returns exactly
`v`, on either host. -/
theorem read_write_roundtrip (host : Endian) (before b after : List Byte) (o : Int) (v : Nat)
    (h0 : 0 ≤ o) (h : o + 2 ≤ b.length) (hv : v ≤ 65535) :
    ∃ mem' : Memory,
      write_uint16_to_packet host (before ++ b ++ after) (.addr before.length) o v = .ok mem' ∧
      read_uint16_from_packet host mem' (.addr before.length) o = .ok v := by
  refine ⟨_, write_window host before b after o v h0 h, ?_⟩
  obtain ⟨g0, g1⟩ := written_bytes b o.toNat (byteOf (v % 65536 / 256)) (byteOf v) (by omega)
  rw [read_window host before _ after o _ _ h0 g0 g1]
  simp only [byteOf, Outcome.ok.injEq]
  omega

/-- C1 at a concrete input: value `0xBEEF` at offset 1 of a 4-byte buffer that
sits between two other bytes. -/
theorem read_write_roundtrip_witness :
    ∃ mem' : Memory,
      write_uint16_to_packet .little ([9] ++ [1, 2, 3, 4] ++ [7]) (.addr 1) 1 0xBEEF = .ok mem' ∧
      read_uint16_from_packet .little mem' (.addr 1) 1 = .ok 0xBEEF :=
  read_write_roundtrip .little [9] [1, 2, 3, 4] [7] 1 0xBEEF (by decide) (by decide) (by decide)

/-- C2. Byte order of a write: for a valid offset `o` and 16-bit `v`, after the
write the buffer holds `v / 256` at `o` and `v % 256` at `o + 1`, on either
host; and writing `0x1234` at offset 0 of any 2-byte buffer leaves
`[0x12, 0x34]`. -/
theorem write_stores_big_endian :
    (∀ (host : Endian) (before b after : List Byte) (o : Int) (v : Nat),
      0 ≤ o → o + 2 ≤ b.length → v ≤ 65535 →
      ∃ (b' : List Byte) (hi lo : Byte),
        write_uint16_to_packet host (before ++ b ++ after) (.addr before.length) o v
          = .ok (before ++ b' ++ after) ∧
        b'[o.toNat]? = some hi ∧ b'[o.toNat + 1]? = some lo ∧
        hi.val = v / 256 ∧ lo.val = v % 256) ∧
    (∀ (host : Endian) (x y : Byte),
      write_uint16_to_packet host [x, y] (.addr 0) 0 0x1234 = .ok [0x12, 0x34]) := by
  constructor
  · intro host before b after o v h0 h hv
    obtain ⟨g0, g1⟩ := written_bytes b o.toNat (byteOf (v % 65536 / 256)) (byteOf v) (by omega)
    refine ⟨_, _, _, write_window host before b after o v h0 h, g0, g1, ?_, ?_⟩
    · simp only [byteOf]; omega
    · simp only [byteOf]
  · intro host x y
    have hw := write_window host [] [x, y] [] 0 0x1234 (by decide) (by simp)
    simpa using hw

/-- C2 at a concrete input: `0x1234` at offset 2 of a 4-byte buffer on a
little-endian host. -/
theorem write_stores_big_endian_witness :
    ∃ (b' : List Byte) (hi lo : Byte),
      write_uint16_to_packet .little ([] ++ [0, 0, 0, 0] ++ []) (.addr 0) 2 0x1234
        = .ok ([] ++ b' ++ []) ∧
      b'[(2 : Int).toNat]? = some hi ∧ b'[(2 : Int).toNat + 1]? = some lo ∧
      hi.val = 0x1234 / 256 ∧ lo.val = 0x1234 % 256 :=
  write_stores_big_endian.1 .little [] [0, 0, 0, 0] [] 2 0x1234
    (by decide) (by decide) (by decide)

/-- C3. A read decodes big-endian: for a valid offset `o` the read returns
`256 * b[o] + b[o+1]`, each byte taken as an unsigned value, so the result is
at most 65535; on either host. -/
theorem read_decodes_big_endian (host : Endian) (before b after : List Byte) (o : Int)
    (h0 : 0 ≤ o) (h : o + 2 ≤ b.length) :
    ∃ x y : Byte, b[o.toNat]? = some x ∧ b[o.toNat + 1]? = some y ∧
      read_uint16_from_packet host (before ++ b ++ after) (.addr before.length) o
        = .ok (256 * x.val + y.val) ∧
      256 * x.val + y.val ≤ 65535 := by
  have hx : o.toNat < b.length := by omega
  have hy : o.toNat + 1 < b.length := by omega
  refine ⟨b[o.toNat], b[o.toNat + 1], List.getElem?_eq_getElem hx,
    List.getElem?_eq_getElem hy, ?_, ?_⟩
  · exact read_window host before b after o _ _ h0 (List.getElem?_eq_getElem hx)
      (List.getElem?_eq_getElem hy)
  · have := (b[o.toNat]).isLt
    have := (b[o.toNat + 1]).isLt
    omega

/-- C3 at a concrete input: the bytes `0xAB, 0xCD` at offset 1. -/
theorem read_decodes_big_endian_witness :
    ∃ x y : Byte, ([1, 0xAB, 0xCD] : List Byte)[(1 : Int).toNat]? = some x ∧
      ([1, 0xAB, 0xCD] : List Byte)[(1 : Int).toNat + 1]? = some y ∧
      read_uint16_from_packet .big ([5] ++ [1, 0xAB, 0xCD] ++ [6])
        (.addr ([5] : List Byte).length) 1 = .ok (256 * x.val + y.val) ∧
      256 * x.val + y.val ≤ 65535 :=
  read_decodes_big_endian .big [5] [1, 0xAB, 0xCD] [6] 1 (by decide) (by decide)

/-- C4. Frame of a write: for a valid offset the write keeps the length of the
buffer and every byte at an index other than `o` and `o + 1`; the bytes of the
object before and after the buffer stay as they were. -/
theorem write_frame (host : Endian) (before b after : List Byte) (o : Int) (v : Nat)
    (h0 : 0 ≤ o) (h : o + 2 ≤ b.length) :
    ∃ b' : List Byte,
      write_uint16_to_packet host (before ++ b ++ after) (.addr before.length) o v
        = .ok (before ++ b' ++ after) ∧
      b'.length = b.length ∧
      ∀ i : Nat, (i : Int) ≠ o → (i : Int) ≠ o + 1 → b'[i]? = b[i]? := by
  refine ⟨_, write_window host before b after o v h0 h, ?_, ?_⟩
  · simp only [List.length_set]
  · intro i hi0 hi1
    rw [List.getElem?_set_ne (by omega), List.getElem?_set_ne (by omega)]

/-- C4 at a concrete input. -/
theorem write_frame_witness :
    ∃ b' : List Byte,
      write_uint16_to_packet .little ([8] ++ [1, 2, 3, 4, 5] ++ [9])
        (.addr ([8] : List Byte).length) 2 0xFFFF = .ok ([8] ++ b' ++ [9]) ∧
      b'.length = ([1, 2, 3, 4, 5] : List Byte).length ∧
      ∀ i : Nat, (i : Int) ≠ 2 → (i : Int) ≠ 2 + 1 →
        b'[i]? = ([1, 2, 3, 4, 5] : List Byte)[i]? :=
  write_frame .little [8] [1, 2, 3, 4, 5] [9] 2 0xFFFF (by decide) (by decide)

/-- C5. Null buffer: with a null pointer the write changes nothing, whatever
the offset and value, and the read returns 0, whatever the offset. -/
theorem null_buffer_default (host : Endian) (mem : Memory) (o : Int) (v : Nat) :
    write_uint16_to_packet host mem .null o v = .ok mem ∧
    read_uint16_from_packet host mem .null o = .ok 0 :=
  ⟨rfl, rfl⟩

/-! ## Outside the caller's buffer, and null -/

/-- Reading two bytes at index `a` is defined exactly when both indices of its
footprint lie in the object. -/
theorem memcpyLoad_defined_iff (mem : Memory) (a : Int) :
    memcpyLoad mem a ≠ .undefined ↔ ∀ i ∈ footprint a, 0 ≤ i ∧ i < mem.length := by
  unfold memcpyLoad footprint
  by_cases hc : 0 ≤ a ∧ a.toNat + 2 ≤ mem.length
  · rw [dif_pos hc]
    simp only [ne_eq, not_false_eq_true, List.mem_cons, List.mem_singleton, true_iff,
      reduceCtorEq, List.not_mem_nil, or_false]
    rintro i (rfl | rfl) <;> omega
  · rw [dif_neg hc]
    simp only [ne_eq, not_true_eq_false, List.mem_cons, List.mem_singleton, false_iff,
      List.not_mem_nil, or_false]
    intro hall
    have h1 := hall a (Or.inl rfl)
    have h2 := hall (a + 1) (Or.inr rfl)
    exact hc ⟨h1.1, by omega⟩

/-- Storing two bytes at index `a` is defined exactly when both indices of its
footprint lie in the object. -/
theorem memcpyStore_defined_iff (mem : Memory) (a : Int) (bs : Byte × Byte) :
    memcpyStore mem a bs ≠ .undefined ↔ ∀ i ∈ footprint a, 0 ≤ i ∧ i < mem.length := by
  unfold memcpyStore footprint
  by_cases hc : 0 ≤ a ∧ a.toNat + 2 ≤ mem.length
  · rw [if_pos hc]
    simp only [ne_eq, not_false_eq_true, List.mem_cons, List.mem_singleton, true_iff,
      reduceCtorEq, List.not_mem_nil, or_false]
    rintro i (rfl | rfl) <;> omega
  · rw [if_neg hc]
    simp only [ne_eq, not_true_eq_false, List.mem_cons, List.mem_singleton, false_iff,
      List.not_mem_nil, or_false]
    intro hall
    have h1 := hall a (Or.inl rfl)
    have h2 := hall (a + 1) (Or.inr rfl)
    exact hc ⟨h1.1, by omega⟩

/-- What a read through a non-null pointer does, with no reference to the
length of the caller's buffer. -/
theorem read_addr (host : Endian) (mem : Memory) (p : Nat) (o : Int) :
    read_uint16_from_packet host mem (.addr p) o =
      match memcpyLoad mem ((p : Int) + o) with
      | .undefined => .undefined
      | .ok bs => .ok (256 * bs.1.val + bs.2.val) := by
  simp only [read_uint16_from_packet]
  generalize memcpyLoad mem ((p : Int) + o) = r
  cases r with
  | undefined => rfl
  | ok bs => simp only [ntohs_objectValue]

/-- What a write through a non-null pointer does, with no reference to the
length of the caller's buffer. -/
theorem write_addr (host : Endian) (mem : Memory) (p : Nat) (o : Int) (v : Nat) :
    write_uint16_to_packet host mem (.addr p) o v =
      memcpyStore mem ((p : Int) + o) (byteOf (v % 65536 / 256), byteOf v) := by
  simp only [write_uint16_to_packet, objectBytes_htons]

/-- C6, counterexample. A 2-byte buffer `[1, 2]` followed in its object by the
bytes `[3, 4]`, offset 1 (so `1 + 2 > 2`): the read returns the value 515,
made of the last byte of the buffer and the byte after it, and the write of
`0x1234` changes byte 1 of the buffer and the byte after the buffer. Neither
fails, the read returns a value and the buffer is modified. -/
theorem out_of_bounds_not_rejected :
    (1 : Int) + 2 > (([1, 2] : List Byte).length : Int) ∧
    read_uint16_from_packet .little ([] ++ [1, 2] ++ [3, 4]) (.addr 0) 1 = .ok 515 ∧
    write_uint16_to_packet .little ([] ++ [1, 2] ++ [3, 4]) (.addr 0) 1 0x1234
      = .ok ([] ++ [1, 0x12] ++ [0x34, 4]) ∧
    ([1, 0x12] : List Byte) ≠ [1, 2] := by
  decide

/-- C6, amended. For an offset with `o + 2 > length b` neither function looks
at the length of the buffer or reports an error: when the two bytes at `o` and
`o + 1` from the start of the buffer still lie in the enclosing object, the
read returns their big-endian value and the write overwrites them with the
high and low byte of the value; when they do not, both are undefined. -/
theorem out_of_bounds_unchecked (host : Endian) (before b after : List Byte) (o : Int)
    (v : Nat) (_hout : o + 2 > b.length) :
    ((∀ i ∈ footprint ((before.length : Int) + o),
        0 ≤ i ∧ i < (before ++ b ++ after).length) →
      (∃ x y : Byte,
        (before ++ b ++ after)[((before.length : Int) + o).toNat]? = some x ∧
        (before ++ b ++ after)[((before.length : Int) + o).toNat + 1]? = some y ∧
        read_uint16_from_packet host (before ++ b ++ after) (.addr before.length) o
          = .ok (256 * x.val + y.val)) ∧
      write_uint16_to_packet host (before ++ b ++ after) (.addr before.length) o v
        = .ok (((before ++ b ++ after).set ((before.length : Int) + o).toNat
              (byteOf (v % 65536 / 256))).set
            (((before.length : Int) + o).toNat + 1) (byteOf v))) ∧
    (¬ (∀ i ∈ footprint ((before.length : Int) + o),
        0 ≤ i ∧ i < (before ++ b ++ after).length) →
      read_uint16_from_packet host (before ++ b ++ after) (.addr before.length) o
        = .undefined ∧
      write_uint16_to_packet host (before ++ b ++ after) (.addr before.length) o v
        = .undefined) := by
  constructor
  · intro hin
    have hc : 0 ≤ (before.length : Int) + o ∧
        ((before.length : Int) + o).toNat + 2 ≤ (before ++ b ++ after).length := by
      have h1 := hin ((before.length : Int) + o) (by simp [footprint])
      have h2 := hin ((before.length : Int) + o + 1) (by simp [footprint])
      exact ⟨h1.1, by omega⟩
    have hx : ((before.length : Int) + o).toNat < (before ++ b ++ after).length := by omega
    have hy : ((before.length : Int) + o).toNat + 1 < (before ++ b ++ after).length := by
      omega
    refine ⟨⟨_, _, List.getElem?_eq_getElem hx, List.getElem?_eq_getElem hy, ?_⟩, ?_⟩
    · rw [read_addr, memcpyLoad_eq _ _ _ _ hc.1 (List.getElem?_eq_getElem hx)
        (List.getElem?_eq_getElem hy)]
    · rw [write_addr]
      unfold memcpyStore
      rw [if_pos hc]
  · intro hout
    constructor
    · rw [read_addr]
      have hl : memcpyLoad (before ++ b ++ after) ((before.length : Int) + o) = .undefined := by
        by_contra hne
        exact hout ((memcpyLoad_defined_iff _ _).1 hne)
      rw [hl]
    · rw [write_addr]
      by_contra hne
      exact hout ((memcpyStore_defined_iff _ _ _).1 hne)

/-- C6, amended, at concrete inputs: offset 1 of a 2-byte buffer with two more
bytes behind it. -/
theorem out_of_bounds_unchecked_witness :
    (1 : Int) + 2 > (([1, 2] : List Byte).length : Int) ∧
    (∃ x y : Byte,
      ([1, 2, 3, 4] : List Byte)[1]? = some x ∧ ([1, 2, 3, 4] : List Byte)[2]? = some y ∧
      read_uint16_from_packet .big [1, 2, 3, 4] (.addr 0) 1 = .ok (256 * x.val + y.val)) ∧
    write_uint16_to_packet .big [1, 2, 3, 4] (.addr 0) 1 7 = .ok [1, 0, 7, 4] :=
  ⟨by decide, (out_of_bounds_unchecked .big [] [1, 2] [3, 4] 1 7 (by decide)).1 (by decide)⟩

/-- C7, counterexample. With a null pointer the read returns the default value
0 and the write completes with memory as it was: neither fails. -/
theorem null_buffer_not_rejected :
    read_uint16_from_packet .little [1, 2] .null 0 = .ok 0 ∧
    write_uint16_to_packet .little [1, 2] .null 0 0x1234 = .ok [1, 2] := by
  decide

/-- C7, amended. With a null pointer neither function fails or signals an
error, on any host, memory, offset and value: the read completes with the
default value 0 and the write completes leaving memory untouched. -/
theorem null_buffer_never_fails (host : Endian) (mem : Memory) (o : Int) (v : Nat) :
    read_uint16_from_packet host mem .null o ≠ .undefined ∧
    write_uint16_to_packet host mem .null o v ≠ .undefined ∧
    read_uint16_from_packet host mem .null o = .ok 0 ∧
    write_uint16_to_packet host mem .null o v = .ok mem := by
  refine ⟨?_, ?_, rfl, rfl⟩
  · simp [read_uint16_from_packet]
  · simp [write_uint16_to_packet]

/-- C8. Safety under the caller's precondition: for a valid offset the indices
`o` and `o + 1` touched by either function lie in `[0, length b)`, the indices
of the object they stand for lie in the object, and neither the read nor the
write is undefined. -/
theorem in_bounds_access_defined (host : Endian) (before b after : List Byte) (o : Int)
    (v : Nat) (h0 : 0 ≤ o) (h : o + 2 ≤ b.length) :
    (∀ i ∈ footprint o, 0 ≤ i ∧ i < b.length) ∧
    (∀ a ∈ footprint ((before.length : Int) + o),
      (before.length : Int) ≤ a ∧ a < before.length + b.length) ∧
    (∃ r, read_uint16_from_packet host (before ++ b ++ after) (.addr before.length) o
      = .ok r) ∧
    (∃ mem', write_uint16_to_packet host (before ++ b ++ after) (.addr before.length) o v
      = .ok mem') := by
  refine ⟨?_, ?_, ?_, ?_⟩
  · intro i hi
    simp only [footprint, List.mem_cons, List.mem_singleton, List.not_mem_nil, or_false] at hi
    rcases hi with rfl | rfl <;> omega
  · intro a ha
    simp only [footprint, List.mem_cons, List.mem_singleton, List.not_mem_nil, or_false] at ha
    rcases ha with rfl | rfl <;> omega
  · have hx : o.toNat < b.length := by omega
    have hy : o.toNat + 1 < b.length := by omega
    exact ⟨_, read_window host before b after o _ _ h0 (List.getElem?_eq_getElem hx)
      (List.getElem?_eq_getElem hy)⟩
  · exact ⟨_, write_window host before b after o v h0 h⟩

/-- C8 at a concrete input: offset 2 of a 4-byte buffer. -/
theorem in_bounds_access_defined_witness :
    (∀ i ∈ footprint 2, 0 ≤ i ∧ i < (([1, 2, 3, 4] : List Byte).length : Int)) ∧
    (∀ a ∈ footprint ((([9] : List Byte).length : Int) + 2),
      (([9] : List Byte).length : Int) ≤ a ∧
      a < ([9] : List Byte).length + ([1, 2, 3, 4] : List Byte).length) ∧
    (∃ r, read_uint16_from_packet .little ([9] ++ [1, 2, 3, 4] ++ []) (.addr 1) 2 = .ok r) ∧
    (∃ mem', write_uint16_to_packet .little ([9] ++ [1, 2, 3, 4] ++ []) (.addr 1) 2 5
      = .ok mem') :=
  in_bounds_access_defined .little [9] [1, 2, 3, 4] [] 2 5 (by decide) (by decide)

/-! ## The entry point -/

/-- With an argument that converts to `port`, `main` reaches its closing brace,
having printed the range message or nothing. -/
theorem main_parsed (argc : Int) (argv : List String) (arg : String) (port : Int)
    (hc : 2 ≤ argc) (ha : argv.get? 1 = some arg)
    (hp : sscanf_d arg.toList = .ok (some port)) :
    main argc argv
      = .ok ⟨if port ≤ 1023 ∨ port > 65535 then [rangeMessage] else [], EXIT_SUCCESS⟩ := by
  have hn : ¬ argc < 2 := by omega
  simp only [main, hn, if_false, ha, hp]

/-- C9. Port validation: whenever the first argument converts to an integer
`port`, `main` prints the range message if and only if `port < 1024` or
`port > 65535`, and prints nothing exactly when `1024 ≤ port ≤ 65535`. The
arguments "1023" and "65536" get the range message; "1024", "2000" and "65535"
get no message. -/
theorem port_validation :
    (∀ (argc : Int) (argv : List String) (arg : String) (port : Int),
      2 ≤ argc → argv.get? 1 = some arg → sscanf_d arg.toList = .ok (some port) →
      ∃ r : ProcessResult, main argc argv = .ok r ∧
        (rangeMessage ∈ r.stderr ↔ port < 1024 ∨ port > 65535) ∧
        (r.stderr = [] ↔ 1024 ≤ port ∧ port ≤ 65535)) ∧
    main 2 ["template", "1023"] = .ok ⟨[rangeMessage], EXIT_SUCCESS⟩ ∧
    main 2 ["template", "65536"] = .ok ⟨[rangeMessage], EXIT_SUCCESS⟩ ∧
    main 2 ["template", "1024"] = .ok ⟨[], EXIT_SUCCESS⟩ ∧
    main 2 ["template", "2000"] = .ok ⟨[], EXIT_SUCCESS⟩ ∧
    main 2 ["template", "65535"] = .ok ⟨[], EXIT_SUCCESS⟩ := by
  refine ⟨?_, by decide, by decide, by decide, by decide, by decide⟩
  intro argc argv arg port hc ha hp
  refine ⟨_, main_parsed argc argv arg port hc ha hp, ?_, ?_⟩
  · by_cases hr : port ≤ 1023 ∨ port > 65535
    · simp only [hr, if_true, List.mem_singleton, true_iff]
      omega
    · simp only [hr, if_false, List.not_mem_nil, false_iff]
      omega
  · by_cases hr : port ≤ 1023 ∨ port > 65535
    · simp only [hr, if_true, List.cons_ne_nil, false_iff, reduceCtorEq]
      omega
    · simp only [hr, if_false, true_iff]
      omega

/-- C9 at a concrete input: the argument " -7" converts to `-7`, which gets
the range message. -/
theorem port_validation_witness :
    ∃ r : ProcessResult, main 3 ["template", " -7", "x"] = .ok r ∧
      (rangeMessage ∈ r.stderr ↔ (-7 : Int) < 1024 ∨ (-7 : Int) > 65535) ∧
      (r.stderr = [] ↔ 1024 ≤ (-7 : Int) ∧ (-7 : Int) ≤ 65535) :=
  port_validation.1 3 ["template", " -7", "x"] " -7" (-7) (by decide) (by decide) (by decide)

/-- C10. Missing or unparsable argument: when `argc < 2`, or the first
argument holds no integer, `main` prints the usage message, and only that, and
ends with the failure status, which is not zero; the range message is not
printed. -/
theorem missing_or_unparsable_argument (argc : Int) (argv : List String)
    (h : argc < 2 ∨ (∃ arg, argv.get? 1 = some arg ∧ sscanf_d arg.toList = .ok none)) :
    main argc argv = .ok ⟨[usageMessage], EXIT_FAILURE⟩ ∧
    EXIT_FAILURE ≠ 0 ∧ rangeMessage ∉ [usageMessage] := by
  refine ⟨?_, by decide, by decide⟩
  by_cases hc : argc < 2
  · simp only [main, hc, if_true]
  · rcases h with h | ⟨arg, ha, hp⟩
    · exact absurd h hc
    · simp only [main, hc, if_false, ha, hp]

/-- C10 at concrete inputs: no argument at all, and the argument "port". -/
theorem missing_or_unparsable_argument_witness :
    (main 1 ["template"] = .ok ⟨[usageMessage], EXIT_FAILURE⟩ ∧
      EXIT_FAILURE ≠ 0 ∧ rangeMessage ∉ [usageMessage]) ∧
    (main 2 ["template", "port"] = .ok ⟨[usageMessage], EXIT_FAILURE⟩ ∧
      EXIT_FAILURE ≠ 0 ∧ rangeMessage ∉ [usageMessage]) :=
  ⟨missing_or_unparsable_argument 1 ["template"] (Or.inl (by decide)),
   missing_or_unparsable_argument 2 ["template", "port"]
     (Or.inr ⟨"port", by decide, by decide⟩)⟩

/-- C11. Out-of-range fall-through: whenever the first argument converts to a
`port` with `port ≤ 1023` or `port > 65535`, `main` prints the range message
and still runs to its closing brace: its status is the success status, not
`EXIT_FAILURE`, the same status every run with an in-range port ends with. -/
theorem out_of_range_falls_through (argc : Int) (argv : List String) (arg : String)
    (port : Int) (hc : 2 ≤ argc) (ha : argv.get? 1 = some arg)
    (hp : sscanf_d arg.toList = .ok (some port)) (hr : port ≤ 1023 ∨ port > 65535) :
    main argc argv = .ok ⟨[rangeMessage], EXIT_SUCCESS⟩ ∧
    EXIT_SUCCESS = 0 ∧ EXIT_SUCCESS ≠ EXIT_FAILURE ∧
    (∀ (argc' : Int) (argv' : List String) (arg' : String) (port' : Int),
      2 ≤ argc' → argv'.get? 1 = some arg' → sscanf_d arg'.toList = .ok (some port') →
      1024 ≤ port' → port' ≤ 65535 →
      main argc' argv' = .ok ⟨[], EXIT_SUCCESS⟩) := by
  refine ⟨?_, rfl, by decide, ?_⟩
  · rw [main_parsed argc argv arg port hc ha hp, if_pos hr]
  · intro argc' argv' arg' port' hc' ha' hp' h1 h2
    have hn : ¬ (port' ≤ 1023 ∨ port' > 65535) := by omega
    rw [main_parsed argc' argv' arg' port' hc' ha' hp', if_neg hn]

/-- C11 at a concrete input: the argument "80" gets the range message and the
success status, as the in-range argument "8080" does without the message. -/
theorem out_of_range_falls_through_witness :
    main 2 ["template", "80"] = .ok ⟨[rangeMessage], EXIT_SUCCESS⟩ ∧
    main 2 ["template", "8080"] = .ok ⟨[], EXIT_SUCCESS⟩ :=
  ⟨(out_of_range_falls_through 2 ["template", "80"] "80" 80 (by decide) (by decide)
      (by decide) (by decide)).1,
   (out_of_range_falls_through 2 ["template", "80"] "80" 80 (by decide) (by decide)
      (by decide) (by decide)).2.2.2 2 ["template", "8080"] "8080" 8080 (by decide)
      (by decide) (by decide) (by decide) (by decide)⟩

/-! ## Host byte order, write-back and disjoint fields -/

/-- C12. Host byte-order independence: with `htons`/`ntohs` the identity on a
big-endian host and a byte swap on a little-endian one, and `memcpy` copying a
`uint16_t` in host memory order, the memory a write leaves and the value a
read returns are the same on both hosts, for every memory, pointer, offset and
value; for a valid offset in a buffer both hosts give the same defined
results. -/
theorem host_order_independent :
    (∀ (mem : Memory) (ptr : Pointer) (o : Int) (v : Nat),
      write_uint16_to_packet .little mem ptr o v = write_uint16_to_packet .big mem ptr o v ∧
      read_uint16_from_packet .little mem ptr o = read_uint16_from_packet .big mem ptr o) ∧
    (∀ (before b after : List Byte) (o : Int) (v : Nat),
      0 ≤ o → o + 2 ≤ b.length →
      ∃ (mem' : Memory) (r : Nat),
        write_uint16_to_packet .little (before ++ b ++ after) (.addr before.length) o v
          = .ok mem' ∧
        write_uint16_to_packet .big (before ++ b ++ after) (.addr before.length) o v
          = .ok mem' ∧
        read_uint16_from_packet .little (before ++ b ++ after) (.addr before.length) o
          = .ok r ∧
        read_uint16_from_packet .big (before ++ b ++ after) (.addr before.length) o
          = .ok r) := by
  constructor
  · intro mem ptr o v
    cases ptr with
    | null => exact ⟨rfl, rfl⟩
    | addr p => exact ⟨by rw [write_addr, write_addr], by rw [read_addr, read_addr]⟩
  · intro before b after o v h0 h
    have hx : o.toNat < b.length := by omega
    have hy : o.toNat + 1 < b.length := by omega
    exact ⟨_, _, write_window .little before b after o v h0 h,
      write_window .big before b after o v h0 h,
      read_window .little before b after o _ _ h0 (List.getElem?_eq_getElem hx)
        (List.getElem?_eq_getElem hy),
      read_window .big before b after o _ _ h0 (List.getElem?_eq_getElem hx)
        (List.getElem?_eq_getElem hy)⟩

/-- C12 at a concrete input: `0xCAFE` written at offset 1, and the field read
at offset 1, on both hosts. -/
theorem host_order_independent_witness :
    ∃ (mem' : Memory) (r : Nat),
      write_uint16_to_packet .little ([7] ++ [1, 2, 3] ++ [8]) (.addr 1) 1 0xCAFE = .ok mem' ∧
      write_uint16_to_packet .big ([7] ++ [1, 2, 3] ++ [8]) (.addr 1) 1 0xCAFE = .ok mem' ∧
      read_uint16_from_packet .little ([7] ++ [1, 2, 3] ++ [8]) (.addr 1) 1 = .ok r ∧
      read_uint16_from_packet .big ([7] ++ [1, 2, 3] ++ [8]) (.addr 1) 1 = .ok r :=
  host_order_independent.2 [7] [1, 2, 3] [8] 1 0xCAFE (by decide) (by decide)

/-- Storing in a list the element it already holds changes nothing. -/
theorem set_same (l : List Byte) (i : Nat) (x : Byte) (h : l[i]? = some x) :
    l.set i x = l := by
  apply List.ext_getElem?
  intro n
  rw [List.getElem?_set]
  by_cases hn : i = n
  · subst hn
    have hlt : i < l.length := by
      rcases Nat.lt_or_ge i l.length with hl | hl
      · exact hl
      · rw [List.getElem?_eq_none hl] at h; cases h
    rw [if_pos rfl, if_pos hlt, h]
  · rw [if_neg hn]

/-- Two writes of two bytes each at indices that do not overlap can be done in
either order. -/
theorem set_pairs_comm (l : List Byte) (i j : Nat) (a c d e : Byte)
    (hij : i + 2 ≤ j ∨ j + 2 ≤ i) :
    (((l.set i a).set (i + 1) c).set j d).set (j + 1) e
      = (((l.set j d).set (j + 1) e).set i a).set (i + 1) c := by
  rw [List.set_comm c d (l.set i a) (show i + 1 ≠ j by omega)]
  rw [List.set_comm a d l (show i ≠ j by omega)]
  rw [List.set_comm c e ((l.set j d).set i a) (show i + 1 ≠ j + 1 by omega)]
  rw [List.set_comm a e (l.set j d) (show i ≠ j + 1 by omega)]

/-- C13. Write-back identity: for a valid offset the read is defined, and
writing the value it returned at the same offset leaves the memory, and so the
buffer, byte for byte as it was; on either host. -/
theorem write_back_identity (host : Endian) (before b after : List Byte) (o : Int)
    (h0 : 0 ≤ o) (h : o + 2 ≤ b.length) :
    ∃ r : Nat,
      read_uint16_from_packet host (before ++ b ++ after) (.addr before.length) o = .ok r ∧
      write_uint16_to_packet host (before ++ b ++ after) (.addr before.length) o r
        = .ok (before ++ b ++ after) := by
  have hx : o.toNat < b.length := by omega
  have hy : o.toNat + 1 < b.length := by omega
  have gx : b[o.toNat]? = some b[o.toNat] := List.getElem?_eq_getElem hx
  have gy : b[o.toNat + 1]? = some b[o.toNat + 1] := List.getElem?_eq_getElem hy
  refine ⟨_, read_window host before b after o _ _ h0 gx gy, ?_⟩
  rw [write_window host before b after o _ h0 h]
  have bx := (b[o.toNat]).isLt
  have bY := (b[o.toNat + 1]).isLt
  have e1 : byteOf ((256 * (b[o.toNat]).val + (b[o.toNat + 1]).val) % 65536 / 256)
      = b[o.toNat] := by
    apply Fin.ext
    simp only [byteOf]
    omega
  have e2 : byteOf (256 * (b[o.toNat]).val + (b[o.toNat + 1]).val) = b[o.toNat + 1] := by
    apply Fin.ext
    simp only [byteOf]
    omega
  rw [e1, e2, set_same b o.toNat _ gx, set_same b (o.toNat + 1) _ gy]

/-- C13 at a concrete input: the field at offset 1 of `[1, 2, 3]`. -/
theorem write_back_identity_witness :
    ∃ r : Nat,
      read_uint16_from_packet .little ([7] ++ [1, 2, 3] ++ [8]) (.addr 1) 1 = .ok r ∧
      write_uint16_to_packet .little ([7] ++ [1, 2, 3] ++ [8]) (.addr 1) 1 r
        = .ok ([7] ++ [1, 2, 3] ++ [8]) :=
  write_back_identity .little [7] [1, 2, 3] [8] 1 (by decide) (by decide)

/-- C14. Independence of fields that do not overlap: for valid offsets `o` and
`p` with `|o - p| ≥ 2` and values `v`, `w`, the write at `o` is defined and
does not change what is read at `p`, and writing `v` at `o` then `w` at `p`
leaves the same memory as writing `w` at `p` then `v` at `o`; on either
host. -/
theorem disjoint_fields_independent (host : Endian) (before b after : List Byte)
    (o p : Int) (v w : Nat) (ho0 : 0 ≤ o) (ho : o + 2 ≤ b.length)
    (hp0 : 0 ≤ p) (hp : p + 2 ≤ b.length) (hd : 2 ≤ |o - p|) :
    ∃ m₁ m₂ m₁₂ : Memory, ∃ r : Nat,
      write_uint16_to_packet host (before ++ b ++ after) (.addr before.length) o v = .ok m₁ ∧
      read_uint16_from_packet host (before ++ b ++ after) (.addr before.length) p = .ok r ∧
      read_uint16_from_packet host m₁ (.addr before.length) p = .ok r ∧
      write_uint16_to_packet host (before ++ b ++ after) (.addr before.length) p w = .ok m₂ ∧
      write_uint16_to_packet host m₁ (.addr before.length) p w = .ok m₁₂ ∧
      write_uint16_to_packet host m₂ (.addr before.length) o v = .ok m₁₂ := by
  have hsep : o.toNat + 2 ≤ p.toNat ∨ p.toNat + 2 ≤ o.toNat := by
    rcases le_abs.1 hd with h | h
    · right; omega
    · left; omega
  have hx : p.toNat < b.length := by omega
  have hy : p.toNat + 1 < b.length := by omega
  have gx : b[p.toNat]? = some b[p.toNat] := List.getElem?_eq_getElem hx
  have gy : b[p.toNat + 1]? = some b[p.toNat + 1] := List.getElem?_eq_getElem hy
  have gx1 : ((b.set o.toNat (byteOf (v % 65536 / 256))).set (o.toNat + 1) (byteOf v))[p.toNat]?
      = some b[p.toNat] := by
    rw [List.getElem?_set_ne (by omega), List.getElem?_set_ne (by omega), gx]
  have gy1 : ((b.set o.toNat (byteOf (v % 65536 / 256))).set (o.toNat + 1)
      (byteOf v))[p.toNat + 1]? = some b[p.toNat + 1] := by
    rw [List.getElem?_set_ne (by omega), List.getElem?_set_ne (by omega), gy]
  refine ⟨_, _, _, _, write_window host before b after o v ho0 ho,
    read_window host before b after p _ _ hp0 gx gy,
    read_window host before _ after p _ _ hp0 gx1 gy1,
    write_window host before b after p w hp0 hp,
    write_window host before _ after p w hp0 (by simp only [List.length_set]; exact hp), ?_⟩
  rw [write_window host before _ after o v ho0 (by simp only [List.length_set]; exact ho)]
  rw [set_pairs_comm b o.toNat p.toNat _ _ _ _ hsep]

/-- C14 at a concrete input: fields at offsets 0 and 2 of a 4-byte buffer. -/
theorem disjoint_fields_independent_witness :
    ∃ m₁ m₂ m₁₂ : Memory, ∃ r : Nat,
      write_uint16_to_packet .little ([7] ++ [1, 2, 3, 4] ++ [8]) (.addr 1) 0 0xAAAA = .ok m₁ ∧
      read_uint16_from_packet .little ([7] ++ [1, 2, 3, 4] ++ [8]) (.addr 1) 2 = .ok r ∧
      read_uint16_from_packet .little m₁ (.addr 1) 2 = .ok r ∧
      write_uint16_to_packet .little ([7] ++ [1, 2, 3, 4] ++ [8]) (.addr 1) 2 0xBBBB = .ok m₂ ∧
      write_uint16_to_packet .little m₁ (.addr 1) 2 0xBBBB = .ok m₁₂ ∧
      write_uint16_to_packet .little m₂ (.addr 1) 0 0xAAAA = .ok m₁₂ :=
  disjoint_fields_independent .little [7] [1, 2, 3, 4] [8] 0 2 0xAAAA 0xBBBB
    (by decide) (by decide) (by decide) (by decide) (by decide)

end Template
